import Mathlib

/-!
Verification development for the TeleFlow background Job Orchestration Engine.

The repository ships the frontend (React pages, the vanilla-JS `app.js`) and
launcher scripts; the Python backend package (`teleflow`: job manager, sync,
reports, bulk_send) is not part of the provided sources.  Definitions below that
carry a doc comment starting with `Modelled from the spec:` embed that missing
backend faithfully from the design document's words; the remaining definitions
(escapeHtml, renderReportItem, telegramSettingsHtml, the bulk-send confirm
guards) are direct translations of the shipped frontend code.
-/

namespace TeleFlow

/-- Job types, from §3: `type` is one of `sync`, `report`, `bulk_send`. -/
inductive JobType where
  | sync
  | report
  | bulk_send
deriving DecidableEq

/-- Job states, from §4.1: `queued -> running -> \x7bcompleted | failed\x7d`. -/
inductive JobState where
  | queued
  | running
  | completed
  | failed
deriving DecidableEq

/-- Error taxonomy of §7 (the embedded-in-result `partial failure` marker is not
a terminal reason and is not needed here). -/
inductive ErrorReason where
  | transient_network
  | remote_auth_required
  | invalid_model_output
  | confirmation_mismatch
  | batch_too_large
  | cancelled
  | resource_busy
  | interrupted
deriving DecidableEq

/-- Modelled from the spec: the Job record of §3 (progress counters and
timestamps are omitted; they do not affect the claims). -/
structure Job where
  id : Nat
  type : JobType
  state : JobState
  error : Option ErrorReason
deriving DecidableEq

/-- Modelled from the spec: each job type's mutually-exclusive resource class
(§3 Resource Lock, examples "sync", "bulk_send"). -/
def resourceClass : JobType → String
  | .sync => "sync"
  | .report => "report"
  | .bulk_send => "bulk_send"

/-- Modelled from the spec: engine state — the Job Record Store plus the
Resource Lock mapping from resource-class name to the id of the holding job. -/
structure EngineState where
  jobs : List Job
  locks : String → Option Nat
  nextId : Nat

def initState : EngineState := ⟨[], fun _ => none, 0⟩

/-- Modelled from the spec: `enqueue(type, parameters) -> job_id` (§4.1).
Enqueue fails immediately (no job created) if the job's declared resource
class already has an active holder; otherwise it creates the Job record and
acquires the Resource Lock atomically. -/
def enqueue (s : EngineState) (t : JobType) : Except ErrorReason Nat × EngineState :=
  match s.locks (resourceClass t) with
  | some _ => (.error .resource_busy, s)
  | none =>
    (.ok s.nextId,
     { jobs := s.jobs ++ [⟨s.nextId, t, .queued, none⟩],
       locks := fun c => if c = resourceClass t then some s.nextId else s.locks c,
       nextId := s.nextId + 1 })

/-- Modelled from the spec: `queued` is instantaneous — the Manager moves the
job to `running` as soon as a worker is available (§4.1). -/
def startUpd (jid : Nat) (j : Job) : Job :=
  if j.id = jid ∧ j.state = .queued then { j with state := .running } else j

def startJob (s : EngineState) (jid : Nat) : EngineState :=
  { s with jobs := s.jobs.map (startUpd jid) }

def finishUpd (jid : Nat) (st : JobState) (err : Option ErrorReason) (j : Job) : Job :=
  if j.id = jid ∧ j.state = .running then { j with state := st, error := err } else j

/-- Modelled from the spec: the Runner persists the terminal Job record and the
Resource Lock is released unconditionally when the job reaches a terminal
state (§3, §4.2). -/
def finishJob (s : EngineState) (jid : Nat) (st : JobState) (err : Option ErrorReason) :
    EngineState :=
  if s.jobs.any (fun j => j.id == jid && j.state == .running) then
    { s with
      jobs := s.jobs.map (finishUpd jid st err),
      locks := fun c =>
        match s.locks c with
        | some i => if i = jid then none else some i
        | none => none }
  else s

def completeJob (s : EngineState) (jid : Nat) : EngineState :=
  finishJob s jid .completed none

def failJob (s : EngineState) (jid : Nat) (r : ErrorReason) : EngineState :=
  finishJob s jid .failed (some r)

def isRunningId (s : EngineState) (i : Nat) : Bool :=
  s.jobs.any fun j => j.id == i && j.state == .running

def recoverUpd (j : Job) : Job :=
  if j.state = .running then { j with state := .failed, error := some .interrupted } else j

/-- Modelled from the spec: on process restart, any Job left in `running` is
not resumed; it is reconciled to `failed` with reason `interrupted`, and its
Resource Lock is released (§7). -/
def recoverOnRestart (s : EngineState) : EngineState :=
  { jobs := s.jobs.map recoverUpd,
    locks := fun c =>
      match s.locks c with
      | some i => if isRunningId s i then none else some i
      | none => none,
    nextId := s.nextId }

/-- One engine step: a successful-or-rejected enqueue, a worker picking up a
queued job, a job finishing (either terminal state), or a process restart. -/
def stepOf (s s' : EngineState) : Prop :=
  (∃ t, s' = (enqueue s t).2) ∨
  (∃ jid, s' = startJob s jid) ∨
  (∃ jid, s' = completeJob s jid) ∨
  (∃ jid r, s' = failJob s jid r) ∨
  s' = recoverOnRestart s

/-- Engine states reachable from the empty initial state by engine steps. -/
inductive Reachable : EngineState → Prop where
  | init : Reachable initState
  | step {s s' : EngineState} : Reachable s → stepOf s s' → Reachable s'

/-- Well-formedness invariant tying the Resource Lock to the active jobs. -/
structure WF (s : EngineState) : Prop where
  idBound : ∀ j ∈ s.jobs, j.id < s.nextId
  idsNodup : (s.jobs.map Job.id).Nodup
  activeLocked : ∀ j ∈ s.jobs, (j.state = .queued ∨ j.state = .running) →
    s.locks (resourceClass j.type) = some j.id
  holders : ∀ c i, s.locks c = some i →
    ∃ j ∈ s.jobs, j.id = i ∧ (j.state = .queued ∨ j.state = .running) ∧
      resourceClass j.type = c

/-- A demo reachable state: one `sync` job enqueued. -/
def demoEnqueued : EngineState := (enqueue initState .sync).2

/-- A demo reachable state: the `sync` job 0 is `running`. -/
def demoRunning : EngineState := startJob demoEnqueued 0

/- ## Bulk Send Orchestrator (§4.5) -/

/-- A bulk-send recipient's stored values used by token substitution
(`\x7b\x7bdisplay_name\x7d\x7d`, `\x7b\x7bfirst_name\x7d\x7d`,
`\x7b\x7busername\x7d\x7d`; README "Available tokens"). -/
structure Recipient where
  display_name : String
  first_name : String
  username : String
deriving DecidableEq

/-- Constant `BULK_SEND_MAX_PER_JOB`, default 200 (README configuration
reference). -/
def BULK_SEND_MAX_PER_JOB : Nat := 200

/-- Constant `BULK_SEND_DELAY_SECONDS`, default 10 (README configuration
reference). -/
def BULK_SEND_DELAY_SECONDS : Nat := 10

def displayTok : List Char := "{{display_name}}".data

def firstTok : List Char := "{{first_name}}".data

def usernameTok : List Char := "{{username}}".data

/-- Modelled from the spec: single-pass token substitution (§4.5 step 1) —
recognized tokens are replaced by the recipient's stored values, every other
character (including unknown tokens) is copied verbatim, and substituted
values are not re-scanned. -/
def renderList (r : Recipient) (l : List Char) : List Char :=
  match l with
  | [] => []
  | c :: rest =>
    if (c :: rest).take 16 = displayTok then
      r.display_name.data ++ renderList r ((c :: rest).drop 16)
    else if (c :: rest).take 14 = firstTok then
      r.first_name.data ++ renderList r ((c :: rest).drop 14)
    else if (c :: rest).take 12 = usernameTok then
      r.username.data ++ renderList r ((c :: rest).drop 12)
    else
      c :: renderList r rest
termination_by l.length
decreasing_by
  all_goals simp only [List.length_drop, List.length_cons]
  all_goals omega

def renderTemplate (t : String) (r : Recipient) : String :=
  ⟨renderList r t.data⟩

/-- Whether any recognized token occurs in the character stream. -/
def hasToken : List Char → Bool
  | [] => false
  | c :: rest =>
    decide ((c :: rest).take 16 = displayTok) ||
    decide ((c :: rest).take 14 = firstTok) ||
    decide ((c :: rest).take 12 = usernameTok) ||
    hasToken rest

/-- Modelled from the spec: the immutable Bulk Send Batch tuple
`(recipient_list, template, confirmation_code)` produced by preview (§3). -/
structure PreviewRecord where
  recipients : List Recipient
  template : String
  confirmation_code : String
deriving DecidableEq

/-- Modelled from the spec: the synchronous preview step (§4.5 step 1).  The
hard recipient cap is enforced at preview entry; nothing is sent and no Job is
persisted (the function only returns the batch tuple).  `code` stands for the
short random confirmation token generated at preview time. -/
def bulkSendPreview (recipients : List Recipient) (template code : String) :
    Except ErrorReason PreviewRecord :=
  if recipients.length > BULK_SEND_MAX_PER_JOB then .error .batch_too_large
  else .ok ⟨recipients, template, code⟩

/-- The rendered per-recipient preview returned alongside the code. -/
def previewRendered (p : PreviewRecord) : List (Recipient × String) :=
  p.recipients.map fun r => (r, renderTemplate p.template r)

/-- Modelled from the spec: the execute job's send loop — recipients strictly
in the given order, each send's success or per-recipient failure recorded, a
failure never aborting the batch (§4.5 step 2).  `send` abstracts the
remote-send collaborator. -/
def runSendLoop (send : Recipient → Bool) : List Recipient → List (Recipient × Bool)
  | [] => []
  | r :: rest => (r, send r) :: runSendLoop send rest

/-- Outcome of a bulk-send execute call: the synchronous admission error if
rejected, the per-recipient manifest, and the terminal job state (none when
no Job record was created). -/
structure ExecOutcome where
  admission : Option ErrorReason
  sends : List (Recipient × Bool)
  job : Option JobState
deriving DecidableEq

/-- Modelled from the spec: the execute step (§4.5 step 2).  The hard cap is
enforced at entry; the call requires the same recipient list, same template
and a byte-for-byte matching confirmation code, any mismatch rejecting it
before any network action and before a Job record is created; on match the
batch runs to completion and the job is `failed` only if zero sends
succeeded. -/
def bulkSendExecute (stored : PreviewRecord) (recipients : List Recipient)
    (template confirmation_code : String) (send : Recipient → Bool) : ExecOutcome :=
  if recipients.length > BULK_SEND_MAX_PER_JOB then ⟨some .batch_too_large, [], none⟩
  else if recipients = stored.recipients ∧ template = stored.template ∧
      confirmation_code = stored.confirmation_code then
    let m := runSendLoop send recipients
    ⟨none, m, some (if (m.filter fun p => p.2).length = 0 then .failed else .completed)⟩
  else ⟨some .confirmation_mismatch, [], none⟩

/-- From src (BulkSend.tsx `handleSend`): `if (!preview || confirmCode !==
preview.confirmation_code) return` — whether the send handler proceeds. -/
def handleSendProceeds (preview : Option PreviewRecord) (confirmCode : String) : Bool :=
  match preview with
  | none => false
  | some p => confirmCode == p.confirmation_code

/-- From src (app.js confirm-input listener): `document.getElementById(
'bulk-send').disabled = e.target.value !== expected`. -/
def bulkSendButtonDisabled (expected value : String) : Bool :=
  value != expected

/-- A send collaborator that always succeeds (for concrete instantiation). -/
def sendAlways : Recipient → Bool := fun _ => true

def demoRecipient : Recipient := ⟨"Alice Smith", "Alice", "alice"⟩

/- ## Sync Pipeline (§4.3) -/

/-- Modelled from the spec: the outcome of fetching and merging one bounded
page of a conversation's messages — either the page is committed (carrying the
last message id in the page) or the fetch/merge fails mid-page. -/
inductive PageOutcome where
  | page (lastMessageId : Nat)
  | fail
deriving DecidableEq

/-- Modelled from the spec: one sync run over one conversation — merge is
applied per page, the watermark advances to the page's last message id only
after the page is committed, and a failure stops the run leaving the watermark
at the last durably merged point (§3, §4.3). -/
def runSyncConv (wm : Nat) : List PageOutcome → Nat
  | [] => wm
  | .page l :: rest => runSyncConv l rest
  | .fail :: _ => wm

/-- The §4.3 fetch contract: pages contain only messages newer than (here: at
least) the watermark current when the page was fetched. -/
def pagesOk (wm : Nat) : List PageOutcome → Bool
  | [] => true
  | .page l :: rest => decide (wm ≤ l) && pagesOk l rest
  | .fail :: _ => true

/-- A sequence of sync runs, each starting from the previous watermark. -/
def runSyncRuns (wm : Nat) (runs : List (List PageOutcome)) : Nat :=
  runs.foldl runSyncConv wm

def runsOk (wm : Nat) : List (List PageOutcome) → Bool
  | [] => true
  | ps :: rest => pagesOk wm ps && runsOk (runSyncConv wm ps) rest

/- ## Report Pipeline (§4.4) -/

/-- Structured data as returned by the text-generation collaborator. -/
inductive JsonVal where
  | null
  | bool (b : Bool)
  | num (n : Int)
  | str (s : String)
  | arr (items : List JsonVal)
  | obj (fields : List (String × JsonVal))

def getField : JsonVal → String → Option JsonVal
  | .obj fields, k => fields.lookup k
  | _, _ => none

def asStr : JsonVal → Option String
  | .str s => some s
  | _ => none

def asNum : JsonVal → Option Int
  | .num n => some n
  | _ => none

def asArr : JsonVal → Option (List JsonVal)
  | .arr items => some items
  | _ => none

/-- A report item: classification target with numeric urgency score and short
rationale (§4.4; field names as consumed by the frontend report renderers). -/
structure ReportItem where
  conversation_uuid : String
  display_name : String
  urgency_score : Int
  summary : String
  reasoning : String
deriving DecidableEq

/-- The three-tier classification required of the model output (§4.4):
`reply_now`, `review`, `low_priority`. -/
structure ReportData where
  reply_now : List ReportItem
  review : List ReportItem
  low_priority : List ReportItem
deriving DecidableEq

/-- Modelled from the spec: parsing one item; any missing required field fails
the parse — the pipeline never guesses or silently drops malformed items
(§4.4). -/
def parseItem (v : JsonVal) : Option ReportItem := do
  let uuid ← (getField v "conversation_uuid").bind asStr
  let name ← (getField v "display_name").bind asStr
  let score ← (getField v "urgency_score").bind asNum
  let summary ← (getField v "summary").bind asStr
  let reasoning ← (getField v "reasoning").bind asStr
  pure ⟨uuid, name, score, summary, reasoning⟩

def parseSection (v : JsonVal) : Option (List ReportItem) :=
  (asArr v).bind fun items => items.mapM parseItem

/-- Modelled from the spec: parsing the provider response as structured data
with the three required sections (§4.4). -/
def parseReport (v : JsonVal) : Option ReportData := do
  let sections ← getField v "sections"
  let rn ← (getField sections "reply_now").bind parseSection
  let rv ← (getField sections "review").bind parseSection
  let lp ← (getField sections "low_priority").bind parseSection
  pure ⟨rn, rv, lp⟩

/-- Modelled from the spec: the report job — parse failure or missing required
field is a `failed` job with reason `invalid_model_output` and nothing is
persisted; on success the full structured report is persisted (§4.4).  The
third component is the persisted report. -/
def runReportJob (response : JsonVal) : JobState × Option ErrorReason × Option ReportData :=
  match parseReport response with
  | none => (.failed, some .invalid_model_output, none)
  | some d => (.completed, none, some d)

/- ## Vanilla-JS frontend (app.js): escapeHtml and innerHTML interpolation -/

def ampSeq : List Char := "&amp;".data

def ltSeq : List Char := "&lt;".data

def gtSeq : List Char := "&gt;".data

/-- Per-character DOM text-node serialization: the metacharacters `&`, `<`,
`>` become entities, every other character is kept. -/
def escapeChar (c : Char) : List Char :=
  if c = '&' then ampSeq
  else if c = '<' then ltSeq
  else if c = '>' then gtSeq
  else [c]

def escapeList : List Char → List Char
  | [] => []
  | c :: rest => escapeChar c ++ escapeList rest

/-- From src (app.js `escapeHtml`): `if (!text) return ''`, then
`div.textContent = text; return div.innerHTML` — the DOM serializes the text
node entity-encoding `&`, `<`, `>`.  `none` stands for null/undefined. -/
def escapeHtml : Option String → String
  | none => ""
  | some s => if s = "" then "" else ⟨escapeList s.data⟩

/-- The browser's inverse direction: parsing serialized text-node markup back
to text (decoding the entities escapeHtml produces). -/
def decodeList (l : List Char) : List Char :=
  match l with
  | [] => []
  | c :: rest =>
    if (c :: rest).take 5 = ampSeq then '&' :: decodeList ((c :: rest).drop 5)
    else if (c :: rest).take 4 = ltSeq then '<' :: decodeList ((c :: rest).drop 4)
    else if (c :: rest).take 4 = gtSeq then '>' :: decodeList ((c :: rest).drop 4)
    else c :: decodeList rest
termination_by l.length
decreasing_by
  all_goals simp only [List.length_drop, List.length_cons]
  all_goals omega

def htmlDecodeString (s : String) : String :=
  ⟨decodeList s.data⟩

/-- Substring containment: `sub` occurs contiguously inside `hay`. -/
def strContains (hay sub : String) : Prop :=
  ∃ pre post : List Char, hay.data = pre ++ sub.data ++ post

/-- From src (app.js `renderReportItem`): the report-item markup interpolating
`escapeHtml(item.display_name)`, the urgency class and raw `item.urgency_score`,
`escapeHtml(item.summary)` and `escapeHtml(item.reasoning)` (whitespace between
tags collapsed). -/
def renderReportItem (item : ReportItem) (urgencyClass : String) : String :=
  "<div class=\"report-item\"><div class=\"report-item-header\"><span class=\"report-item-name\">"
    ++ escapeHtml (some item.display_name)
    ++ "</span><span class=\"urgency-score urgency-" ++ urgencyClass ++ "\">"
    ++ toString item.urgency_score
    ++ "</span></div><div class=\"report-item-summary\">"
    ++ escapeHtml (some item.summary)
    ++ "</div><div class=\"report-item-reasoning\">"
    ++ escapeHtml (some item.reasoning)
    ++ "</div></div>"

/-- The connected Telegram account as exposed on `/api/status`. -/
structure TgUser where
  first_name : Option String
  username : Option String

/-- From src (app.js `loadSettings`): `document.getElementById(
'telegram-settings').innerHTML = status.telegram_connected ? `<p>✅ Connected
as $\x7bstatus.user?.first_name || 'Unknown'\x7d (@$\x7bstatus.user?.username
|| 'N/A'\x7d)</p>` : ...` — note the interpolations do not go through
escapeHtml. -/
def telegramSettingsHtml (telegram_connected : Bool) (user : Option TgUser) : String :=
  if telegram_connected then
    "<p>✅ Connected as " ++ ((user.bind TgUser.first_name).getD "Unknown") ++ " (@"
      ++ ((user.bind TgUser.username).getD "N/A") ++ ")</p>"
  else
    "<p>⚠️ Not connected</p><button class=\"btn btn-primary\" onclick=\"showAuthModal()\">Connect</button>"

/- ## Helper lemmas -/

theorem renderList_nil (r : Recipient) : renderList r [] = [] := by
  unfold renderList
  rfl

theorem renderList_cons (r : Recipient) (c : Char) (rest : List Char) :
    renderList r (c :: rest) =
      if (c :: rest).take 16 = displayTok then
        r.display_name.data ++ renderList r ((c :: rest).drop 16)
      else if (c :: rest).take 14 = firstTok then
        r.first_name.data ++ renderList r ((c :: rest).drop 14)
      else if (c :: rest).take 12 = usernameTok then
        r.username.data ++ renderList r ((c :: rest).drop 12)
      else
        c :: renderList r rest := by
  conv_lhs => unfold renderList

theorem render_passthrough (r : Recipient) (l : List Char) (h : hasToken l = false) :
    renderList r l = l := by
  induction l with
  | nil => exact renderList_nil r
  | cons c rest ih =>
    rw [hasToken] at h
    simp only [Bool.or_eq_false_iff, decide_eq_false_iff_not] at h
    obtain ⟨⟨⟨h1, h2⟩, h3⟩, h4⟩ := h
    rw [renderList_cons, if_neg h1, if_neg h2, if_neg h3, ih h4]

theorem render_display (r : Recipient) (rest : List Char) :
    renderList r (displayTok ++ rest) = r.display_name.data ++ renderList r rest := by
  obtain ⟨c, l, hcl⟩ : ∃ c l, displayTok ++ rest = c :: l := by
    cases h : displayTok ++ rest with
    | nil => simp [displayTok] at h
    | cons c l => exact ⟨c, l, rfl⟩
  rw [hcl, renderList_cons, ← hcl]
  have ht : (displayTok ++ rest).take 16 = displayTok := by
    rw [show (16 : Nat) = displayTok.length from rfl, List.take_left]
  have hd : (displayTok ++ rest).drop 16 = rest := by
    rw [show (16 : Nat) = displayTok.length from rfl, List.drop_left]
  rw [if_pos ht, hd]

theorem firstTok_take16_ne (l : List Char) : (firstTok ++ l).take 16 ≠ displayTok := by
  intro h
  have h3 := congrArg (List.take 3) h
  rw [List.take_take] at h3
  rw [show firstTok = '{' :: '{' :: 'f' :: "irst_name\x7d\x7d".data from rfl,
    show displayTok = '{' :: '{' :: 'd' :: "isplay_name\x7d\x7d".data from rfl] at h3
  simp at h3

theorem usernameTok_take16_ne (l : List Char) : (usernameTok ++ l).take 16 ≠ displayTok := by
  intro h
  have h3 := congrArg (List.take 3) h
  rw [List.take_take] at h3
  rw [show usernameTok = '{' :: '{' :: 'u' :: "sername\x7d\x7d".data from rfl,
    show displayTok = '{' :: '{' :: 'd' :: "isplay_name\x7d\x7d".data from rfl] at h3
  simp at h3

theorem usernameTok_take14_ne (l : List Char) : (usernameTok ++ l).take 14 ≠ firstTok := by
  intro h
  have h3 := congrArg (List.take 3) h
  rw [List.take_take] at h3
  rw [show usernameTok = '{' :: '{' :: 'u' :: "sername\x7d\x7d".data from rfl,
    show firstTok = '{' :: '{' :: 'f' :: "irst_name\x7d\x7d".data from rfl] at h3
  simp at h3

theorem render_first (r : Recipient) (rest : List Char) :
    renderList r (firstTok ++ rest) = r.first_name.data ++ renderList r rest := by
  obtain ⟨c, l, hcl⟩ : ∃ c l, firstTok ++ rest = c :: l := by
    cases h : firstTok ++ rest with
    | nil => simp [firstTok] at h
    | cons c l => exact ⟨c, l, rfl⟩
  rw [hcl, renderList_cons, ← hcl]
  have ht : (firstTok ++ rest).take 14 = firstTok := by
    rw [show (14 : Nat) = firstTok.length from rfl, List.take_left]
  have hd : (firstTok ++ rest).drop 14 = rest := by
    rw [show (14 : Nat) = firstTok.length from rfl, List.drop_left]
  rw [if_neg (firstTok_take16_ne rest), if_pos ht, hd]

theorem render_username (r : Recipient) (rest : List Char) :
    renderList r (usernameTok ++ rest) = r.username.data ++ renderList r rest := by
  obtain ⟨c, l, hcl⟩ : ∃ c l, usernameTok ++ rest = c :: l := by
    cases h : usernameTok ++ rest with
    | nil => simp [usernameTok] at h
    | cons c l => exact ⟨c, l, rfl⟩
  rw [hcl, renderList_cons, ← hcl]
  have ht : (usernameTok ++ rest).take 12 = usernameTok := by
    rw [show (12 : Nat) = usernameTok.length from rfl, List.take_left]
  have hd : (usernameTok ++ rest).drop 12 = rest := by
    rw [show (12 : Nat) = usernameTok.length from rfl, List.drop_left]
  rw [if_neg (usernameTok_take16_ne rest), if_neg (usernameTok_take14_ne rest), if_pos ht, hd]

theorem string_data_append (s t : String) : (s ++ t).data = s.data ++ t.data := by
  cases s
  cases t
  rfl

theorem runSendLoop_map_fst (send : Recipient → Bool) (l : List Recipient) :
    (runSendLoop send l).map Prod.fst = l := by
  induction l with
  | nil => rfl
  | cons r rest ih => simp [runSendLoop, ih]

theorem runSendLoop_get? (send : Recipient → Bool) (l : List Recipient) (i : Nat) :
    (runSendLoop send l).get? i = (l.get? i).map fun r => (r, send r) := by
  induction l generalizing i with
  | nil => simp [runSendLoop]
  | cons r rest ih =>
    cases i with
    | zero => simp [runSendLoop]
    | succ n => simpa [runSendLoop] using ih n

theorem runSyncConv_mono (ps : List PageOutcome) :
    ∀ wm, pagesOk wm ps = true → wm ≤ runSyncConv wm ps := by
  induction ps with
  | nil => intro wm _; exact Nat.le_refl wm
  | cons p rest ih =>
    intro wm h
    cases p with
    | page l =>
      rw [pagesOk, Bool.and_eq_true, decide_eq_true_eq] at h
      exact Nat.le_trans h.1 (ih l h.2)
    | fail => exact Nat.le_refl wm

theorem runSyncRuns_mono (runs : List (List PageOutcome)) :
    ∀ wm, runsOk wm runs = true → wm ≤ runSyncRuns wm runs := by
  induction runs with
  | nil => intro wm _; exact Nat.le_refl wm
  | cons ps rest ih =>
    intro wm h
    rw [runsOk, Bool.and_eq_true] at h
    exact Nat.le_trans (runSyncConv_mono ps wm h.1)
      (ih (runSyncConv wm ps) h.2)

theorem runSyncConv_durable (committed : List Nat) :
    ∀ wm rest, runSyncConv wm (committed.map PageOutcome.page ++ PageOutcome.fail :: rest)
      = runSyncConv wm (committed.map PageOutcome.page) := by
  induction committed with
  | nil => intro wm rest; rfl
  | cons l ls ih => intro wm rest; simpa [runSyncConv] using ih l rest

/- ## Claim theorems -/

/-- C3: for every conversation, across any sequence of sync runs including runs
interrupted mid-page, the sync watermark is monotonically non-decreasing, and a
sync that fails midway leaves the watermark exactly where the last committed
page left it (never at a partially merged point — the failed page and anything
after it contribute nothing). -/
theorem sync_watermark_monotone :
    (∀ wm ps, pagesOk wm ps = true → wm ≤ runSyncConv wm ps) ∧
    (∀ wm runs, runsOk wm runs = true → wm ≤ runSyncRuns wm runs) ∧
    (∀ wm (committed : List Nat) rest,
      runSyncConv wm (committed.map PageOutcome.page ++ PageOutcome.fail :: rest)
        = runSyncConv wm (committed.map PageOutcome.page)) :=
  ⟨fun wm ps => runSyncConv_mono ps wm,
   fun wm runs => runSyncRuns_mono runs wm,
   fun wm committed rest => runSyncConv_durable committed wm rest⟩

theorem sync_watermark_monotone_witness :
    (5 ≤ runSyncConv 5 [.page 7, .page 9]) ∧
    (5 ≤ runSyncRuns 5 [[.page 7], [.page 9, .fail]]) ∧
    runSyncConv 5 [.page 7, .fail, .page 100] = runSyncConv 5 [.page 7] :=
  ⟨sync_watermark_monotone.1 5 [.page 7, .page 9] (by decide),
   sync_watermark_monotone.2.1 5 [[.page 7], [.page 9, .fail]] (by decide),
   sync_watermark_monotone.2.2 5 [7] [.page 100]⟩

/-- C4: rendering a recipient's message is total (a total function of the
template and recipient) and idempotent in the claim's sense — rendering the
same (template, recipient) twice yields identical output; the recognized
tokens `\x7b\x7bdisplay_name\x7d\x7d`, `\x7b\x7bfirst_name\x7d\x7d` and
`\x7b\x7busername\x7d\x7d` are substituted with the recipient's stored values
wherever they occur, and a template containing no recognized token (in
particular one containing only unknown tokens) passes through verbatim, never
causing an error. -/
theorem render_total_deterministic_tokens :
    (∀ t r, renderTemplate t r = renderTemplate t r) ∧
    (∀ (rest : String) (r : Recipient),
      renderTemplate ("{{display_name}}" ++ rest) r = r.display_name ++ renderTemplate rest r) ∧
    (∀ (rest : String) (r : Recipient),
      renderTemplate ("{{first_name}}" ++ rest) r = r.first_name ++ renderTemplate rest r) ∧
    (∀ (rest : String) (r : Recipient),
      renderTemplate ("{{username}}" ++ rest) r = r.username ++ renderTemplate rest r) ∧
    (∀ t r, hasToken t.data = false → renderTemplate t r = t) := by
  refine ⟨fun t r => rfl, ?_, ?_, ?_, ?_⟩
  · intro rest r
    show String.mk (renderList r (("{{display_name}}" ++ rest).data)) = _
    rw [string_data_append, show ("{{display_name}}" : String).data = displayTok from rfl,
      render_display]
    rfl
  · intro rest r
    show String.mk (renderList r (("{{first_name}}" ++ rest).data)) = _
    rw [string_data_append, show ("{{first_name}}" : String).data = firstTok from rfl,
      render_first]
    rfl
  · intro rest r
    show String.mk (renderList r (("{{username}}" ++ rest).data)) = _
    rw [string_data_append, show ("{{username}}" : String).data = usernameTok from rfl,
      render_username]
    rfl
  · intro t r h
    show String.mk (renderList r t.data) = t
    rw [render_passthrough r t.data h]

theorem render_total_deterministic_tokens_witness :
    renderTemplate ("{{first_name}}" ++ ", see {{nickname}}!") demoRecipient
      = demoRecipient.first_name ++ renderTemplate ", see {{nickname}}!" demoRecipient ∧
    renderTemplate ", see {{nickname}}!" demoRecipient = ", see {{nickname}}!" :=
  ⟨render_total_deterministic_tokens.2.2.1 ", see {{nickname}}!" demoRecipient,
   render_total_deterministic_tokens.2.2.2.2 ", see {{nickname}}!" demoRecipient (by decide)⟩

/-- C7: for every report job, if the provider response fails to parse as the
required structured data or is missing a required field, the job ends `failed`
with reason `invalid_model_output` and nothing is persisted (third component
`none`); conversely a successful parse persists exactly the parsed report. -/
theorem report_invalid_model_output (v : JsonVal) :
    (parseReport v = none → runReportJob v = (.failed, some .invalid_model_output, none)) ∧
    (∀ d, parseReport v = some d → runReportJob v = (.completed, none, some d)) := by
  constructor
  · intro h
    unfold runReportJob
    rw [h]
  · intro d h
    unfold runReportJob
    rw [h]

theorem report_invalid_model_output_witness :
    runReportJob (.obj [("sections",
      .obj [("reply_now", .arr [.obj [("display_name", .str "Bob")]]),
            ("review", .arr []), ("low_priority", .arr [])])])
      = (.failed, some .invalid_model_output, none) :=
  (report_invalid_model_output _).1 rfl

/-- C6: every bulk-send batch whose recipient count exceeds the hard cap
`BULK_SEND_MAX_PER_JOB` (default 200) is rejected with `batch_too_large` at
preview entry and at execute entry, before execution begins: zero sends are
performed, no Job record is created, and the batch is not truncated. -/
theorem bulk_batch_too_large_rejected (stored : PreviewRecord)
    (recipients : List Recipient) (template gcode code : String) (send : Recipient → Bool)
    (h : recipients.length > BULK_SEND_MAX_PER_JOB) :
    bulkSendPreview recipients template gcode = .error .batch_too_large ∧
    bulkSendExecute stored recipients template code send
      = ⟨some .batch_too_large, [], none⟩ := by
  constructor
  · unfold bulkSendPreview
    rw [if_pos h]
  · unfold bulkSendExecute
    rw [if_pos h]

theorem bulk_batch_too_large_rejected_witness :
    bulkSendPreview (List.replicate 201 demoRecipient) "hi" "ABC123"
      = .error .batch_too_large ∧
    bulkSendExecute ⟨[], "hi", "ABC123"⟩ (List.replicate 201 demoRecipient) "hi" "ABC123"
        sendAlways
      = ⟨some .batch_too_large, [], none⟩ :=
  bulk_batch_too_large_rejected ⟨[], "hi", "ABC123"⟩ (List.replicate 201 demoRecipient)
    "hi" "ABC123" "ABC123" sendAlways
    (by rw [List.length_replicate]; decide)

/-- C1: a bulk-send execute whose confirmation code is not byte-for-byte equal
to the code returned by the preview that produced the stored batch (same
recipients, same template) rejects with `confirmation_mismatch`, performs zero
sends, and creates no Job record; moreover both shipped frontend guards block
such a send: `handleSend` returns early and the Send button stays disabled. -/
theorem bulk_execute_confirmation_mismatch (recipients : List Recipient)
    (template gcode : String) (stored : PreviewRecord) (code : String)
    (send : Recipient → Bool)
    (hprev : bulkSendPreview recipients template gcode = .ok stored)
    (hne : code ≠ stored.confirmation_code) :
    bulkSendExecute stored recipients template code send
      = ⟨some .confirmation_mismatch, [], none⟩ ∧
    handleSendProceeds (some stored) code = false ∧
    bulkSendButtonDisabled stored.confirmation_code code = true := by
  unfold bulkSendPreview at hprev
  by_cases hlen : recipients.length > BULK_SEND_MAX_PER_JOB
  · rw [if_pos hlen] at hprev
    exact absurd hprev (by simp)
  · rw [if_neg hlen] at hprev
    refine ⟨?_, ?_, ?_⟩
    · unfold bulkSendExecute
      rw [if_neg hlen, if_neg]
      intro hc
      exact hne hc.2.2
    · simp [handleSendProceeds, hne]
    · simp [bulkSendButtonDisabled, bne_iff_ne, hne]

theorem bulk_execute_confirmation_mismatch_witness :
    bulkSendExecute ⟨[demoRecipient], "hi {{first_name}}", "ABC123"⟩ [demoRecipient]
        "hi {{first_name}}" "WRONG" sendAlways
      = ⟨some .confirmation_mismatch, [], none⟩ ∧
    handleSendProceeds (some ⟨[demoRecipient], "hi {{first_name}}", "ABC123"⟩) "WRONG"
      = false ∧
    bulkSendButtonDisabled "ABC123" "WRONG" = true :=
  bulk_execute_confirmation_mismatch [demoRecipient] "hi {{first_name}}" "ABC123"
    ⟨[demoRecipient], "hi {{first_name}}", "ABC123"⟩ "WRONG" sendAlways rfl (by decide)

/-- C5: for every accepted bulk-send batch (same recipients, template and code
as the stored preview batch, within the cap), the execute job is admitted, its
result manifest lists exactly the input recipients in input order — entry `i`
records recipient `i` together with its own send outcome, so a failure at
position `i` still leaves entries for positions `i+1..n` — and the job as a
whole ends `failed` exactly when zero sends succeeded. -/
theorem bulk_execute_order_and_failures (stored : PreviewRecord)
    (recipients : List Recipient) (template code : String) (send : Recipient → Bool)
    (hrec : recipients = stored.recipients) (htem : template = stored.template)
    (hcode : code = stored.confirmation_code)
    (hcap : recipients.length ≤ BULK_SEND_MAX_PER_JOB) :
    (bulkSendExecute stored recipients template code send).admission = none ∧
    (bulkSendExecute stored recipients template code send).sends.map Prod.fst
      = recipients ∧
    (∀ i, (bulkSendExecute stored recipients template code send).sends.get? i
      = (recipients.get? i).map fun r => (r, send r)) ∧
    ((bulkSendExecute stored recipients template code send).job = some .failed ↔
      ((bulkSendExecute stored recipients template code send).sends.filter
        fun p => p.2).length = 0) := by
  have hex : bulkSendExecute stored recipients template code send
      = ⟨none, runSendLoop send recipients,
          some (if ((runSendLoop send recipients).filter fun p => p.2).length = 0
            then .failed else .completed)⟩ := by
    unfold bulkSendExecute
    rw [if_neg (not_lt.mpr hcap), if_pos ⟨hrec, htem, hcode⟩]
  rw [hex]
  refine ⟨rfl, runSendLoop_map_fst send recipients, fun i => runSendLoop_get? send recipients i, ?_⟩
  by_cases hz : ((runSendLoop send recipients).filter fun p => p.2).length = 0
  · simp [hz]
  · simp [hz]

theorem bulk_execute_order_and_failures_witness :
    (bulkSendExecute ⟨[demoRecipient], "hi", "ABC123"⟩ [demoRecipient] "hi" "ABC123"
      sendAlways).admission = none ∧
    (bulkSendExecute ⟨[demoRecipient], "hi", "ABC123"⟩ [demoRecipient] "hi" "ABC123"
      sendAlways).sends.map Prod.fst = [demoRecipient] ∧
    (∀ i, (bulkSendExecute ⟨[demoRecipient], "hi", "ABC123"⟩ [demoRecipient] "hi" "ABC123"
      sendAlways).sends.get? i
        = ([demoRecipient].get? i).map fun r => (r, sendAlways r)) ∧
    ((bulkSendExecute ⟨[demoRecipient], "hi", "ABC123"⟩ [demoRecipient] "hi" "ABC123"
      sendAlways).job = some .failed ↔
      ((bulkSendExecute ⟨[demoRecipient], "hi", "ABC123"⟩ [demoRecipient] "hi" "ABC123"
        sendAlways).sends.filter fun p => p.2).length = 0) :=
  bulk_execute_order_and_failures ⟨[demoRecipient], "hi", "ABC123"⟩ [demoRecipient]
    "hi" "ABC123" sendAlways rfl rfl rfl (by decide)

/- ## Engine invariant lemmas -/

theorem startUpd_id (jid : Nat) (j : Job) : (startUpd jid j).id = j.id := by
  unfold startUpd
  split <;> rfl

theorem startUpd_type (jid : Nat) (j : Job) : (startUpd jid j).type = j.type := by
  unfold startUpd
  split <;> rfl

theorem finishUpd_id (jid : Nat) (st : JobState) (err : Option ErrorReason) (j : Job) :
    (finishUpd jid st err j).id = j.id := by
  unfold finishUpd
  split <;> rfl

theorem finishUpd_type (jid : Nat) (st : JobState) (err : Option ErrorReason) (j : Job) :
    (finishUpd jid st err j).type = j.type := by
  unfold finishUpd
  split <;> rfl

theorem recoverUpd_id (j : Job) : (recoverUpd j).id = j.id := by
  unfold recoverUpd
  split <;> rfl

theorem recoverUpd_type (j : Job) : (recoverUpd j).type = j.type := by
  unfold recoverUpd
  split <;> rfl

theorem map_preserves_ids (f : Job → Job) (hf : ∀ j, (f j).id = j.id) (l : List Job) :
    (l.map f).map Job.id = l.map Job.id := by
  induction l with
  | nil => rfl
  | cons j rest ih => simp [hf, ih]

theorem job_id_inj {s : EngineState} (h : WF s) {j1 j2 : Job} (h1 : j1 ∈ s.jobs)
    (h2 : j2 ∈ s.jobs) (hid : j1.id = j2.id) : j1 = j2 :=
  List.inj_on_of_nodup_map h.idsNodup h1 h2 hid

theorem isRunningId_true_iff (s : EngineState) (i : Nat) :
    isRunningId s i = true ↔ ∃ j ∈ s.jobs, j.id = i ∧ j.state = .running := by
  simp [isRunningId, List.any_eq_true, Bool.and_eq_true, beq_iff_eq]

theorem wf_init : WF initState := by
  constructor
  · intro j hj
    simp [initState] at hj
  · simp [initState]
  · intro j hj
    simp [initState] at hj
  · intro c i h
    simp [initState] at h

theorem wf_enqueue (s : EngineState) (t : JobType) (h : WF s) : WF (enqueue s t).2 := by
  unfold enqueue
  cases hlock : s.locks (resourceClass t) with
  | some i => simpa [hlock] using h
  | none =>
    simp only [hlock]
    constructor
    · intro j hj
      rcases List.mem_append.1 hj with hj' | hj'
      · exact Nat.lt_trans (h.idBound j hj') (Nat.lt_succ_self _)
      · rcases List.mem_singleton.1 hj' with rfl
        exact Nat.lt_succ_self _
    · rw [List.map_append]
      rw [List.nodup_append]
      refine ⟨h.idsNodup, List.nodup_singleton _, ?_⟩
      intro a ha hb
      rcases List.mem_map.1 ha with ⟨j, hj, rfl⟩
      rcases List.mem_singleton.1 hb with h'
      exact absurd h' (Nat.ne_of_lt (h.idBound j hj))
    · intro j hj hnt
      rcases List.mem_append.1 hj with hj' | hj'
      · have hl := h.activeLocked j hj' hnt
        by_cases hc : resourceClass j.type = resourceClass t
        · rw [hc, hlock] at hl
          exact absurd hl (by simp)
        · simpa [hc] using hl
      · rcases List.mem_singleton.1 hj' with rfl
        simp
    · intro c i hc
      have hc' : (if c = resourceClass t then some s.nextId else s.locks c) = some i := hc
      by_cases hcc : c = resourceClass t
      · rw [if_pos hcc] at hc'
        rcases Option.some.inj hc' with rfl
        exact ⟨⟨s.nextId, t, .queued, none⟩, List.mem_append.2 (Or.inr (List.mem_singleton.2 rfl)),
          rfl, Or.inl rfl, hcc.symm⟩
      · rw [if_neg hcc] at hc'
        rcases h.holders c i hc' with ⟨j, hj, hid, hnt, hcl⟩
        exact ⟨j, List.mem_append.2 (Or.inl hj), hid, hnt, hcl⟩

theorem wf_start (s : EngineState) (jid : Nat) (h : WF s) : WF (startJob s jid) := by
  constructor
  · intro j' hj'
    rcases List.mem_map.1 hj' with ⟨j, hj, rfl⟩
    rw [startUpd_id]
    exact h.idBound j hj
  · show ((s.jobs.map (startUpd jid)).map Job.id).Nodup
    rw [map_preserves_ids _ (startUpd_id jid)]
    exact h.idsNodup
  · intro j' hj' hnt
    rcases List.mem_map.1 hj' with ⟨j, hj, rfl⟩
    show s.locks (resourceClass (startUpd jid j).type) = some (startUpd jid j).id
    rw [startUpd_id, startUpd_type]
    apply h.activeLocked j hj
    unfold startUpd at hnt
    by_cases hc : j.id = jid ∧ j.state = .queued
    · exact Or.inl hc.2
    · rwa [if_neg hc] at hnt
  · intro c i hc
    rcases h.holders c i hc with ⟨j, hj, hid, hnt, hcl⟩
    refine ⟨startUpd jid j, List.mem_map.2 ⟨j, hj, rfl⟩, ?_, ?_, ?_⟩
    · rw [startUpd_id]; exact hid
    · unfold startUpd
      by_cases hcj : j.id = jid ∧ j.state = .queued
      · rw [if_pos hcj]; exact Or.inr rfl
      · rw [if_neg hcj]; exact hnt
    · rw [startUpd_type]; exact hcl

theorem wf_finish (s : EngineState) (jid : Nat) (st : JobState) (err : Option ErrorReason)
    (hst : st = .completed ∨ st = .failed) (h : WF s) : WF (finishJob s jid st err) := by
  unfold finishJob
  by_cases hany : s.jobs.any (fun j => j.id == jid && j.state == .running) = true
  case neg => simpa [hany] using h
  rw [if_pos hany]
  have hrun : ∃ j2 ∈ s.jobs, j2.id = jid ∧ j2.state = .running := by
    simpa [List.any_eq_true, Bool.and_eq_true, beq_iff_eq] using hany
  constructor
  · intro j' hj'
    rcases List.mem_map.1 hj' with ⟨j, hj, rfl⟩
    rw [finishUpd_id]
    exact h.idBound j hj
  · show ((s.jobs.map (finishUpd jid st err)).map Job.id).Nodup
    rw [map_preserves_ids _ (finishUpd_id jid st err)]
    exact h.idsNodup
  · intro j' hj' hnt
    rcases List.mem_map.1 hj' with ⟨j, hj, rfl⟩
    by_cases hc : j.id = jid ∧ j.state = .running
    · exfalso
      unfold finishUpd at hnt
      rw [if_pos hc] at hnt
      rcases hst with rfl | rfl <;> simp at hnt
    · have hju : finishUpd jid st err j = j := by
        unfold finishUpd; rw [if_neg hc]
      rw [hju]
      rw [hju] at hnt
      have hl := h.activeLocked j hj hnt
      show (match s.locks (resourceClass j.type) with
        | some i => if i = jid then none else some i
        | none => none) = some j.id
      rw [hl]
      have hne : j.id ≠ jid := by
        intro heq
        rcases hrun with ⟨j2, hj2, hid2, hst2⟩
        have : j = j2 := job_id_inj h hj hj2 (by rw [heq, hid2])
        subst this
        exact hc ⟨heq, hst2⟩
      simp [hne]
  · intro c i hc
    revert hc
    show (match s.locks c with
      | some i => if i = jid then none else some i
      | none => none) = some i → _
    cases hsc : s.locks c with
    | none => intro hc; simp at hc
    | some i0 =>
      intro hc
      have hc' : (if i0 = jid then none else some i0) = some i := hc
      by_cases hi0 : i0 = jid
      · rw [if_pos hi0] at hc'
        simp at hc'
      · rw [if_neg hi0] at hc'
        rcases Option.some.inj hc' with rfl
        rcases h.holders c i0 hsc with ⟨j, hj, hid, hnt, hcl⟩
        have hju : finishUpd jid st err j = j := by
          unfold finishUpd
          rw [if_neg]
          intro hcj
          exact hi0 (hid ▸ hcj.1)
        exact ⟨finishUpd jid st err j, List.mem_map.2 ⟨j, hj, rfl⟩,
          by rw [hju]; exact hid, by rw [hju]; exact hnt, by rw [hju]; exact hcl⟩

theorem wf_recover (s : EngineState) (h : WF s) : WF (recoverOnRestart s) := by
  constructor
  · intro j' hj'
    rcases List.mem_map.1 hj' with ⟨j, hj, rfl⟩
    rw [recoverUpd_id]
    exact h.idBound j hj
  · show ((s.jobs.map recoverUpd).map Job.id).Nodup
    rw [map_preserves_ids _ recoverUpd_id]
    exact h.idsNodup
  · intro j' hj' hnt
    rcases List.mem_map.1 hj' with ⟨j, hj, rfl⟩
    by_cases hr : j.state = .running
    · exfalso
      unfold recoverUpd at hnt
      rw [if_pos hr] at hnt
      simp at hnt
    · have hju : recoverUpd j = j := by
        unfold recoverUpd; rw [if_neg hr]
      rw [hju]
      rw [hju] at hnt
      have hl := h.activeLocked j hj hnt
      show (match s.locks (resourceClass j.type) with
        | some i => if isRunningId s i then none else some i
        | none => none) = some j.id
      rw [hl]
      have hrf : isRunningId s j.id = false := by
        cases hb : isRunningId s j.id with
        | false => rfl
        | true =>
          exfalso
          rcases (isRunningId_true_iff s j.id).1 hb with ⟨j2, hj2, hid2, hst2⟩
          have : j2 = j := job_id_inj h hj2 hj hid2
          subst this
          exact hr hst2
      simp [hrf]
  · intro c i hc
    revert hc
    show (match s.locks c with
      | some i => if isRunningId s i then none else some i
      | none => none) = some i → _
    cases hsc : s.locks c with
    | none => intro hc; simp at hc
    | some i0 =>
      intro hc
      have hc' : (if isRunningId s i0 then none else some i0) = some i := hc
      cases hb : isRunningId s i0 with
      | true => rw [hb] at hc'; simp at hc'
      | false =>
        rw [hb] at hc'
        simp at hc'
        subst hc'
        rcases h.holders c i0 hsc with ⟨j, hj, hid, hnt, hcl⟩
        have hjr : j.state ≠ .running := by
          intro hr
          have : isRunningId s i0 = true := (isRunningId_true_iff s i0).2 ⟨j, hj, hid, hr⟩
          rw [this] at hb
          exact Bool.noConfusion hb
        have hju : recoverUpd j = j := by
          unfold recoverUpd; rw [if_neg hjr]
        exact ⟨recoverUpd j, List.mem_map.2 ⟨j, hj, rfl⟩,
          by rw [hju]; exact hid, by rw [hju]; exact hnt, by rw [hju]; exact hcl⟩

theorem wf_step {s s' : EngineState} (h : WF s) (hstep : stepOf s s') : WF s' := by
  rcases hstep with ⟨t, rfl⟩ | ⟨jid, rfl⟩ | ⟨jid, rfl⟩ | ⟨jid, r, rfl⟩ | rfl
  · exact wf_enqueue s t h
  · exact wf_start s jid h
  · exact wf_finish s jid .completed none (Or.inl rfl) h
  · exact wf_finish s jid .failed (some r) (Or.inr rfl) h
  · exact wf_recover s h

theorem wf_reachable {s : EngineState} (h : Reachable s) : WF s := by
  induction h with
  | init => exact wf_init
  | step _ hstep ih => exact wf_step ih hstep

theorem enqueue_of_lock_none {s : EngineState} {t : JobType}
    (h : s.locks (resourceClass t) = none) :
    enqueue s t =
      (.ok s.nextId,
       { jobs := s.jobs ++ [⟨s.nextId, t, .queued, none⟩],
         locks := fun c => if c = resourceClass t then some s.nextId else s.locks c,
         nextId := s.nextId + 1 }) := by
  unfold enqueue
  rw [h]

theorem enqueue_of_lock_some {s : EngineState} {t : JobType} {i : Nat}
    (h : s.locks (resourceClass t) = some i) :
    enqueue s t = (.error .resource_busy, s) := by
  unfold enqueue
  rw [h]

theorem reachable_demoRunning : Reachable demoRunning :=
  Reachable.step (Reachable.step Reachable.init (Or.inl ⟨.sync, rfl⟩))
    (Or.inr (Or.inl ⟨0, rfl⟩))

theorem demoRunning_jobs : demoRunning.jobs = [⟨0, .sync, .running, none⟩] := rfl

/-- C2: in every reachable engine state, no two jobs of the same resource
class are both `running` (any two such jobs are the same job); and an enqueue
for a resource class that already has an active (queued or running) holder
fails immediately and synchronously with `resource_busy`, returning the state
unchanged — no job is created. -/
theorem resource_class_mutual_exclusion (s : EngineState) (h : Reachable s) :
    (∀ j1 ∈ s.jobs, ∀ j2 ∈ s.jobs, j1.state = .running → j2.state = .running →
      resourceClass j1.type = resourceClass j2.type → j1 = j2) ∧
    (∀ t, (∃ j ∈ s.jobs, (j.state = .queued ∨ j.state = .running) ∧
        resourceClass j.type = resourceClass t) →
      enqueue s t = (.error .resource_busy, s)) := by
  have hwf := wf_reachable h
  constructor
  · intro j1 h1 j2 h2 hr1 hr2 hcl
    have hl1 := hwf.activeLocked j1 h1 (Or.inr hr1)
    have hl2 := hwf.activeLocked j2 h2 (Or.inr hr2)
    rw [hcl] at hl1
    rw [hl2] at hl1
    exact job_id_inj hwf h2 h1 (Option.some.inj hl1) |>.symm
  · intro t ⟨j, hj, hnt, hcl⟩
    have hl := hwf.activeLocked j hj hnt
    rw [hcl] at hl
    exact enqueue_of_lock_some hl

theorem resource_class_mutual_exclusion_witness :
    enqueue demoRunning .sync = (.error .resource_busy, demoRunning) :=
  (resource_class_mutual_exclusion demoRunning reachable_demoRunning).2 .sync
    ⟨⟨0, .sync, .running, none⟩, by rw [demoRunning_jobs]; exact List.mem_singleton.2 rfl,
      Or.inr rfl, rfl⟩

/-- C8: across every engine step, each job's state moves only along
`queued -> running -> \x7bcompleted | failed\x7d`: the step preserves the job
(same id) and either leaves its state unchanged, moves `queued` to `running`,
or moves `running` to a terminal state; `completed` and `failed` are terminal —
a job already in a terminal state is left entirely unchanged, so it never
re-enters `queued` or `running`. -/
theorem job_state_machine_transitions (s s' : EngineState) (hstep : stepOf s s')
    (j : Job) (hj : j ∈ s.jobs) :
    ∃ j' ∈ s'.jobs, j'.id = j.id ∧
      (j'.state = j.state ∨ (j.state = .queued ∧ j'.state = .running) ∨
        (j.state = .running ∧ (j'.state = .completed ∨ j'.state = .failed))) ∧
      ((j.state = .completed ∨ j.state = .failed) → j' = j) := by
  rcases hstep with ⟨t, rfl⟩ | ⟨jid, rfl⟩ | ⟨jid, rfl⟩ | ⟨jid, r, rfl⟩ | rfl
  · refine ⟨j, ?_, rfl, Or.inl rfl, fun _ => rfl⟩
    unfold enqueue
    cases hlock : s.locks (resourceClass t) with
    | some i => exact hj
    | none => exact List.mem_append.2 (Or.inl hj)
  · refine ⟨startUpd jid j, List.mem_map.2 ⟨j, hj, rfl⟩, startUpd_id jid j, ?_, ?_⟩
    · unfold startUpd
      by_cases hc : j.id = jid ∧ j.state = .queued
      · rw [if_pos hc]
        exact Or.inr (Or.inl ⟨hc.2, rfl⟩)
      · rw [if_neg hc]
        exact Or.inl rfl
    · intro hterm
      unfold startUpd
      rw [if_neg]
      intro hc
      rcases hterm with ht | ht <;> rw [hc.2] at ht <;> exact JobState.noConfusion ht
  · unfold completeJob finishJob
    by_cases hany : s.jobs.any (fun j => j.id == jid && j.state == .running) = true
    case neg =>
      rw [if_neg hany]
      exact ⟨j, hj, rfl, Or.inl rfl, fun _ => rfl⟩
    rw [if_pos hany]
    refine ⟨finishUpd jid .completed none j, List.mem_map.2 ⟨j, hj, rfl⟩,
      finishUpd_id jid .completed none j, ?_, ?_⟩
    · unfold finishUpd
      by_cases hc : j.id = jid ∧ j.state = .running
      · rw [if_pos hc]
        exact Or.inr (Or.inr ⟨hc.2, Or.inl rfl⟩)
      · rw [if_neg hc]
        exact Or.inl rfl
    · intro hterm
      unfold finishUpd
      rw [if_neg]
      intro hc
      rcases hterm with ht | ht <;> rw [hc.2] at ht <;> exact JobState.noConfusion ht
  · unfold failJob finishJob
    by_cases hany : s.jobs.any (fun j => j.id == jid && j.state == .running) = true
    case neg =>
      rw [if_neg hany]
      exact ⟨j, hj, rfl, Or.inl rfl, fun _ => rfl⟩
    rw [if_pos hany]
    refine ⟨finishUpd jid .failed (some r) j, List.mem_map.2 ⟨j, hj, rfl⟩,
      finishUpd_id jid .failed (some r) j, ?_, ?_⟩
    · unfold finishUpd
      by_cases hc : j.id = jid ∧ j.state = .running
      · rw [if_pos hc]
        exact Or.inr (Or.inr ⟨hc.2, Or.inr rfl⟩)
      · rw [if_neg hc]
        exact Or.inl rfl
    · intro hterm
      unfold finishUpd
      rw [if_neg]
      intro hc
      rcases hterm with ht | ht <;> rw [hc.2] at ht <;> exact JobState.noConfusion ht
  · refine ⟨recoverUpd j, List.mem_map.2 ⟨j, hj, rfl⟩, recoverUpd_id j, ?_, ?_⟩
    · unfold recoverUpd
      by_cases hc : j.state = .running
      · rw [if_pos hc]
        exact Or.inr (Or.inr ⟨hc, Or.inr rfl⟩)
      · rw [if_neg hc]
        exact Or.inl rfl
    · intro hterm
      unfold recoverUpd
      rw [if_neg]
      intro hc
      rcases hterm with ht | ht <;> rw [hc] at ht <;> exact JobState.noConfusion ht

theorem job_state_machine_transitions_witness :
    ∃ j' ∈ (completeJob demoRunning 0).jobs, j'.id = (Job.mk 0 .sync .running none).id ∧
      (j'.state = (Job.mk 0 .sync .running none).state ∨
        ((Job.mk 0 .sync .running none).state = .queued ∧ j'.state = .running) ∨
        ((Job.mk 0 .sync .running none).state = .running ∧
          (j'.state = .completed ∨ j'.state = .failed))) ∧
      (((Job.mk 0 .sync .running none).state = .completed ∨
          (Job.mk 0 .sync .running none).state = .failed) → j' = Job.mk 0 .sync .running none) :=
  job_state_machine_transitions demoRunning (completeJob demoRunning 0)
    (Or.inr (Or.inr (Or.inl ⟨0, rfl⟩))) (Job.mk 0 .sync .running none)
    (by rw [demoRunning_jobs]; exact List.mem_singleton.2 rfl)

/-- C9: in every reachable engine state, every Job record in `running` state
is, after a process restart, reconciled to `failed` with reason `interrupted`
(not resumed), its Resource Lock is released, and its resource class is
immediately available: an enqueue for that class on the recovered state
succeeds. -/
theorem restart_reconciles_running_jobs (s : EngineState) (h : Reachable s)
    (j : Job) (hj : j ∈ s.jobs) (hrun : j.state = .running) :
    (∃ j' ∈ (recoverOnRestart s).jobs, j'.id = j.id ∧ j'.state = .failed ∧
      j'.error = some .interrupted) ∧
    (recoverOnRestart s).locks (resourceClass j.type) = none ∧
    (∀ t, resourceClass t = resourceClass j.type →
      ∃ s'', enqueue (recoverOnRestart s) t = (.ok (recoverOnRestart s).nextId, s'')) := by
  have hwf := wf_reachable h
  have hl := hwf.activeLocked j hj (Or.inr hrun)
  have hlock : (recoverOnRestart s).locks (resourceClass j.type) = none := by
    show (match s.locks (resourceClass j.type) with
      | some i => if isRunningId s i then none else some i
      | none => none) = none
    rw [hl]
    have : isRunningId s j.id = true := (isRunningId_true_iff s j.id).2 ⟨j, hj, rfl, hrun⟩
    simp [this]
  refine ⟨?_, hlock, ?_⟩
  · refine ⟨recoverUpd j, List.mem_map.2 ⟨j, hj, rfl⟩, recoverUpd_id j, ?_⟩
    unfold recoverUpd
    rw [if_pos hrun]
    exact ⟨rfl, rfl⟩
  · intro t ht
    exact ⟨_, enqueue_of_lock_none (by rw [ht]; exact hlock)⟩

theorem restart_reconciles_running_jobs_witness :
    (∃ j' ∈ (recoverOnRestart demoRunning).jobs, j'.id = (Job.mk 0 .sync .running none).id ∧
      j'.state = .failed ∧ j'.error = some .interrupted) ∧
    (recoverOnRestart demoRunning).locks (resourceClass (Job.mk 0 .sync .running none).type)
      = none ∧
    (∀ t, resourceClass t = resourceClass (Job.mk 0 .sync .running none).type →
      ∃ s'', enqueue (recoverOnRestart demoRunning) t
        = (.ok (recoverOnRestart demoRunning).nextId, s'')) :=
  restart_reconciles_running_jobs demoRunning reachable_demoRunning
    (Job.mk 0 .sync .running none)
    (by rw [demoRunning_jobs]; exact List.mem_singleton.2 rfl) rfl

/- ## escapeHtml lemmas (C10) -/

theorem decodeList_nil : decodeList [] = [] := by
  unfold decodeList
  rfl

theorem decodeList_cons (c : Char) (rest : List Char) :
    decodeList (c :: rest) =
      if (c :: rest).take 5 = ampSeq then '&' :: decodeList ((c :: rest).drop 5)
      else if (c :: rest).take 4 = ltSeq then '<' :: decodeList ((c :: rest).drop 4)
      else if (c :: rest).take 4 = gtSeq then '>' :: decodeList ((c :: rest).drop 4)
      else c :: decodeList rest := by
  conv_lhs => unfold decodeList

theorem lt_take5_ne_amp (X : List Char) : (ltSeq ++ X).take 5 ≠ ampSeq := by
  intro he
  have h1 : ((ltSeq ++ X).take 5).tail.head? = some 'l' := rfl
  rw [he] at h1
  rw [show ampSeq.tail.head? = some 'a' from rfl] at h1
  exact absurd (Option.some.inj h1) (by decide)

theorem gt_take5_ne_amp (X : List Char) : (gtSeq ++ X).take 5 ≠ ampSeq := by
  intro he
  have h1 : ((gtSeq ++ X).take 5).tail.head? = some 'g' := rfl
  rw [he] at h1
  rw [show ampSeq.tail.head? = some 'a' from rfl] at h1
  exact absurd (Option.some.inj h1) (by decide)

theorem gt_take4_ne_lt (X : List Char) : (gtSeq ++ X).take 4 ≠ ltSeq := by
  intro he
  have h1 : ((gtSeq ++ X).take 4).tail.head? = some 'g' := rfl
  rw [he] at h1
  rw [show ltSeq.tail.head? = some 'l' from rfl] at h1
  exact absurd (Option.some.inj h1) (by decide)

theorem plain_take_ne_amp (c : Char) (X : List Char) (h : c ≠ '&') :
    (c :: X).take 5 ≠ ampSeq := by
  intro he
  have h1 : ((c :: X).take 5).head? = some c := rfl
  rw [he] at h1
  rw [show ampSeq.head? = some '&' from rfl] at h1
  exact h (Option.some.inj h1).symm

theorem plain_take_ne_lt (c : Char) (X : List Char) (h : c ≠ '&') :
    (c :: X).take 4 ≠ ltSeq := by
  intro he
  have h1 : ((c :: X).take 4).head? = some c := rfl
  rw [he] at h1
  rw [show ltSeq.head? = some '&' from rfl] at h1
  exact h (Option.some.inj h1).symm

theorem plain_take_ne_gt (c : Char) (X : List Char) (h : c ≠ '&') :
    (c :: X).take 4 ≠ gtSeq := by
  intro he
  have h1 : ((c :: X).take 4).head? = some c := rfl
  rw [he] at h1
  rw [show gtSeq.head? = some '&' from rfl] at h1
  exact h (Option.some.inj h1).symm

theorem decode_amp (X : List Char) : decodeList (ampSeq ++ X) = '&' :: decodeList X := by
  obtain ⟨c, l, hcl⟩ : ∃ c l, ampSeq ++ X = c :: l := by
    cases h : ampSeq ++ X with
    | nil => simp [ampSeq] at h
    | cons c l => exact ⟨c, l, rfl⟩
  rw [hcl, decodeList_cons, ← hcl]
  have ht : (ampSeq ++ X).take 5 = ampSeq := by
    rw [show (5 : Nat) = ampSeq.length from rfl, List.take_left]
  have hd : (ampSeq ++ X).drop 5 = X := by
    rw [show (5 : Nat) = ampSeq.length from rfl, List.drop_left]
  rw [if_pos ht, hd]

theorem decode_lt (X : List Char) : decodeList (ltSeq ++ X) = '<' :: decodeList X := by
  obtain ⟨c, l, hcl⟩ : ∃ c l, ltSeq ++ X = c :: l := by
    cases h : ltSeq ++ X with
    | nil => simp [ltSeq] at h
    | cons c l => exact ⟨c, l, rfl⟩
  rw [hcl, decodeList_cons, ← hcl]
  have ht : (ltSeq ++ X).take 4 = ltSeq := by
    rw [show (4 : Nat) = ltSeq.length from rfl, List.take_left]
  have hd : (ltSeq ++ X).drop 4 = X := by
    rw [show (4 : Nat) = ltSeq.length from rfl, List.drop_left]
  rw [if_neg (lt_take5_ne_amp X), if_pos ht, hd]

theorem decode_gt (X : List Char) : decodeList (gtSeq ++ X) = '>' :: decodeList X := by
  obtain ⟨c, l, hcl⟩ : ∃ c l, gtSeq ++ X = c :: l := by
    cases h : gtSeq ++ X with
    | nil => simp [gtSeq] at h
    | cons c l => exact ⟨c, l, rfl⟩
  rw [hcl, decodeList_cons, ← hcl]
  have ht : (gtSeq ++ X).take 4 = gtSeq := by
    rw [show (4 : Nat) = gtSeq.length from rfl, List.take_left]
  have hd : (gtSeq ++ X).drop 4 = X := by
    rw [show (4 : Nat) = gtSeq.length from rfl, List.drop_left]
  rw [if_neg (gt_take5_ne_amp X), if_neg (gt_take4_ne_lt X), if_pos ht, hd]

theorem decode_plain (c : Char) (X : List Char) (h1 : c ≠ '&') :
    decodeList (c :: X) = c :: decodeList X := by
  rw [decodeList_cons, if_neg (plain_take_ne_amp c X h1), if_neg (plain_take_ne_lt c X h1),
    if_neg (plain_take_ne_gt c X h1)]

theorem decode_escape (l : List Char) : decodeList (escapeList l) = l := by
  induction l with
  | nil => exact decodeList_nil
  | cons c rest ih =>
    show decodeList (escapeChar c ++ escapeList rest) = c :: rest
    by_cases h1 : c = '&'
    · subst h1
      rw [show escapeChar '&' = ampSeq from rfl, decode_amp, ih]
    · by_cases h2 : c = '<'
      · subst h2
        rw [show escapeChar '<' = ltSeq from rfl, decode_lt, ih]
      · by_cases h3 : c = '>'
        · subst h3
          rw [show escapeChar '>' = gtSeq from rfl, decode_gt, ih]
        · rw [show escapeChar c = [c] from by
            unfold escapeChar; rw [if_neg h1, if_neg h2, if_neg h3]]
          rw [show ([c] ++ escapeList rest) = c :: escapeList rest from rfl]
          rw [decode_plain c (escapeList rest) h1, ih]

theorem escapeList_no_raw (l : List Char) :
    '<' ∉ escapeList l ∧ '>' ∉ escapeList l := by
  induction l with
  | nil => exact ⟨List.not_mem_nil _, List.not_mem_nil _⟩
  | cons c rest ih =>
    have hc : '<' ∉ escapeChar c ∧ '>' ∉ escapeChar c := by
      unfold escapeChar
      by_cases h1 : c = '&'
      · rw [if_pos h1]
        exact ⟨by decide, by decide⟩
      · rw [if_neg h1]
        by_cases h2 : c = '<'
        · rw [if_pos h2]
          exact ⟨by decide, by decide⟩
        · rw [if_neg h2]
          by_cases h3 : c = '>'
          · rw [if_pos h3]
            exact ⟨by decide, by decide⟩
          · rw [if_neg h3]
            constructor
            · rw [List.mem_singleton]
              intro h
              exact h2 h.symm
            · rw [List.mem_singleton]
              intro h
              exact h3 h.symm
    show _ ∉ escapeChar c ++ escapeList rest ∧ _ ∉ escapeChar c ++ escapeList rest
    constructor
    · rw [List.mem_append]
      rintro (h | h)
      · exact hc.1 h
      · exact ih.1 h
    · rw [List.mem_append]
      rintro (h | h)
      · exact hc.2 h
      · exact ih.2 h

theorem strContains_self (s : String) : strContains s s :=
  ⟨[], [], by simp⟩

theorem strContains_append_left (a b sub : String) (h : strContains a sub) :
    strContains (a ++ b) sub := by
  rcases h with ⟨pre, post, hsplit⟩
  exact ⟨pre, post ++ b.data, by rw [string_data_append, hsplit]; simp⟩

theorem strContains_append_right (a b sub : String) (h : strContains b sub) :
    strContains (a ++ b) sub := by
  rcases h with ⟨pre, post, hsplit⟩
  exact ⟨a.data ++ pre, post, by rw [string_data_append, hsplit]; simp⟩

/-- C10 (amended): the frontend's `escapeHtml` entity-encodes the HTML
metacharacters `&`, `<`, `>` so that parsing the result as text-node HTML
yields the original string (and the result contains no raw `<` or `>`), and it
returns the empty string for null/undefined/empty input; the report-item
renderer interpolates `display_name`, `summary` and `reasoning` only through
`escapeHtml`.  (The original claim's "every user-derived string interpolated
into innerHTML passes through escapeHtml" is false — see the
counterexample.) -/
theorem escape_html_correct_amended :
    (∀ s : String, htmlDecodeString (escapeHtml (some s)) = s) ∧
    (∀ s : String, '<' ∉ (escapeHtml (some s)).data ∧ '>' ∉ (escapeHtml (some s)).data) ∧
    escapeHtml none = "" ∧
    escapeHtml (some "") = "" ∧
    (∀ item cls, strContains (renderReportItem item cls) (escapeHtml (some item.display_name)) ∧
      strContains (renderReportItem item cls) (escapeHtml (some item.summary)) ∧
      strContains (renderReportItem item cls) (escapeHtml (some item.reasoning))) := by
  refine ⟨?_, ?_, rfl, rfl, ?_⟩
  · intro s
    show htmlDecodeString (if s = "" then "" else ⟨escapeList s.data⟩) = s
    by_cases h : s = ""
    · rw [if_pos h, h]
      show String.mk (decodeList ("" : String).data) = ""
      rw [show ("" : String).data = ([] : List Char) from rfl, decodeList_nil]
    · rw [if_neg h]
      show String.mk (decodeList (escapeList s.data)) = s
      rw [decode_escape]
  · intro s
    show '<' ∉ (if s = "" then "" else (⟨escapeList s.data⟩ : String)).data ∧
      '>' ∉ (if s = "" then "" else (⟨escapeList s.data⟩ : String)).data
    by_cases h : s = ""
    · rw [if_pos h]
      exact ⟨List.not_mem_nil _, List.not_mem_nil _⟩
    · rw [if_neg h]
      exact escapeList_no_raw s.data
  · intro item cls
    refine ⟨?_, ?_, ?_⟩
    · exact strContains_append_left _ _ _ (strContains_append_left _ _ _
        (strContains_append_left _ _ _ (strContains_append_left _ _ _
        (strContains_append_left _ _ _ (strContains_append_left _ _ _
        (strContains_append_left _ _ _ (strContains_append_left _ _ _
        (strContains_append_left _ _ _
          (strContains_append_right _ _ _ (strContains_self _))))))))))
    · exact strContains_append_left _ _ _ (strContains_append_left _ _ _
        (strContains_append_left _ _ _
          (strContains_append_right _ _ _ (strContains_self _))))
    · exact strContains_append_left _ _ _
        (strContains_append_right _ _ _ (strContains_self _))

theorem escape_html_correct_amended_witness :
    htmlDecodeString (escapeHtml (some "a<b&c>d")) = "a<b&c>d" ∧
    escapeHtml none = "" ∧
    strContains (renderReportItem ⟨"u1", "Ann & Bo", 9, "ping <now>", "vip"⟩ "high")
      (escapeHtml (some "ping <now>")) :=
  ⟨escape_html_correct_amended.1 "a<b&c>d",
   escape_html_correct_amended.2.2.1,
   (escape_html_correct_amended.2.2.2.2 ⟨"u1", "Ann & Bo", 9, "ping <now>", "vip"⟩ "high").2.1⟩

/-- C10 counterexample: not every user-derived string interpolated into
innerHTML in the vanilla-JS frontend passes through escapeHtml.  The settings
page (app.js `loadSettings`) interpolates the connected Telegram account's
`first_name` and `username` raw: for a first name containing markup the
produced innerHTML contains the raw markup (so inserting it as HTML does not
render the text literally), whereas escapeHtml would have entity-encoded
it. -/
theorem escape_html_not_universal_counterexample :
    telegramSettingsHtml true (some ⟨some "<b>boss</b>", some "u"⟩)
      = "<p>✅ Connected as <b>boss</b> (@u)</p>" ∧
    strContains (telegramSettingsHtml true (some ⟨some "<b>boss</b>", some "u"⟩))
      "<b>boss</b>" ∧
    escapeHtml (some "<b>boss</b>") = "&lt;b&gt;boss&lt;/b&gt;" := by
  refine ⟨by decide, ⟨"<p>✅ Connected as ".data, " (@u)</p>".data, by decide⟩, by decide⟩

end TeleFlow
